import Mathlib

/-!
Verification of the CPU-monitor engine (`run_cpu_anlayser.py`).

Shallow embedding conventions:
* Python floats (timestamps, CPU percentages) are modelled as `ℚ`;
  Python ints as `Int`.
* The three parallel arrays of `CircularBuffer` (`_buffer`, `_timestamps`,
  `_pids`) are updated in lockstep at the same index, so they are merged
  into one array of `Reading` records; an uninitialised slot holds
  `timestamp = none` (Python `None`).
* Python truthiness is modelled explicitly where the source relies on it
  (`if window_start and ...`, `if self._timestamps[idx] and ...`):
  `None` and `0`/`0.0` are falsy.
* Fallible external effects (subprocess census, evidence persistence,
  config-file reads) are inputs of the step functions: the census result
  is passed in already structured, persistence success is a boolean, the
  config file is `Option (mtime × Option parsedContent)` where the outer
  `none` models an `OSError` from `getmtime` and the inner `none` models
  a `json.JSONDecodeError` / `FileNotFoundError` in `load_config`.
* Real time (sleeping, log throttling, gc) is not modelled; one call of
  `monitorStep` is one iteration of the `while True` loop body of
  `CPUMonitor.monitor` with the acquired process mapping and its
  timestamp given as inputs.
-/

namespace CPUMon

/-- One slot of the circular buffer: the merged view of the parallel
arrays `_buffer` (cpu), `_timestamps`, `_pids` at one index. -/
structure Reading where
  timestamp : Option ℚ
  cpu : ℚ
  pid : Int
deriving DecidableEq

/-- `CircularBuffer.__init__`: arrays pre-filled with zeros/None. -/
structure CircularBuffer where
  buffer : List Reading
  size : Nat
  pos : Nat
  count : Nat
deriving DecidableEq

def CircularBuffer.new (maxsize : Nat) : CircularBuffer :=
  { buffer := List.replicate maxsize ⟨none, 0, 0⟩
    size := maxsize
    pos := 0
    count := 0 }

/-- `CircularBuffer.append`: write at `_pos`, advance `_pos` modulo
`_size`, increment `_count` if below capacity. -/
def CircularBuffer.append (b : CircularBuffer) (t cpu : ℚ) (pid : Int) :
    CircularBuffer :=
  { b with
    buffer := b.buffer.set b.pos ⟨some t, cpu, pid⟩
    pos := (b.pos + 1) % b.size
    count := if b.count < b.size then b.count + 1 else b.count }

/-- `CircularBuffer.get_values`: CPU values oldest→newest. -/
def CircularBuffer.get_values (b : CircularBuffer) : List ℚ :=
  if b.count = 0 then []
  else if b.count < b.size then (b.buffer.take b.count).map Reading.cpu
  else ((b.buffer.drop b.pos) ++ (b.buffer.take b.pos)).map Reading.cpu

/-- Loop body of `CircularBuffer.get_recent_values`: walk backwards from
the most recent entry, keep entries whose timestamp is truthy and at
least the cutoff, stop at the first failure.  `rem` is the remaining
iteration budget (initially `_count`), `i` the loop counter. -/
def CircularBuffer.grvAux (b : CircularBuffer) (cutoff : ℚ) :
    Nat → Nat → List ℚ
  | 0, _ => []
  | rem + 1, i =>
    let idx : Nat := (((b.pos : Int) - 1 - (i : Int)) % (b.size : Int)).toNat
    let r := b.buffer.getD idx ⟨none, 0, 0⟩
    match r.timestamp with
    | none => []
    | some t => if t ≠ 0 ∧ cutoff ≤ t then r.cpu :: b.grvAux cutoff rem (i + 1)
                else []

/-- `CircularBuffer.get_recent_values`: values within the time window,
most recent first. -/
def CircularBuffer.get_recent_values (b : CircularBuffer)
    (window_seconds current_time : ℚ) : List ℚ :=
  if b.count = 0 then []
  else b.grvAux (current_time - window_seconds) b.count 0

/-- `CircularBuffer.clear`: only the counters are reset, slots stay. -/
def CircularBuffer.clear (b : CircularBuffer) : CircularBuffer :=
  { b with count := 0, pos := 0 }

/-! ## Configuration (`load_config`, `CPUMonitor.reload_config`) -/

structure Config where
  process_names : List String
  cpu_threshold : ℚ
  check_interval : Int
  monitoring_window : Int
  percentage : Int
  evidence_folder : String
  log_file : String
deriving DecidableEq

/-- The `default_config` dictionary of `load_config`. -/
def default_config : Config :=
  { process_names := ["java", "Docker", "Virtual Machine Service for Docker",
      "IntelliJ IDEA", "Google Chrome", "Safari", "WindowServer"]
    cpu_threshold := 95
    check_interval := 10
    monitoring_window := 300
    percentage := 85
    evidence_folder := "cpu_evidence"
    log_file := "cpu_monitor.log" }

/-- A successfully parsed JSON config: each key may be absent. -/
structure PartialConfig where
  process_names : Option (List String) := none
  cpu_threshold : Option ℚ := none
  check_interval : Option Int := none
  monitoring_window : Option Int := none
  percentage : Option Int := none
  evidence_folder : Option String := none
  log_file : Option String := none
deriving DecidableEq

/-- The process-name merging of `load_config`: keep the configured names,
then add each default name whose lower-case form is not yet present
(case-insensitive duplicate check via a running set of seen lower-case
names). -/
def mergeProcessNames (cfgNames : List String) : List String :=
  (default_config.process_names.foldl
    (fun acc d =>
      if acc.2.contains d.toLower then acc
      else (acc.1 ++ [d], acc.2 ++ [d.toLower]))
    (cfgNames, cfgNames.map String.toLower)).1

/-- `load_config`: `parsed = none` models the `except (FileNotFoundError,
json.JSONDecodeError)` branch, which returns the defaults. -/
def load_config (parsed : Option PartialConfig) : Config :=
  match parsed with
  | none => default_config
  | some p =>
    { process_names :=
        match p.process_names with
        | some l => if l.isEmpty then default_config.process_names
                    else mergeProcessNames l
        | none => default_config.process_names
      cpu_threshold := p.cpu_threshold.getD default_config.cpu_threshold
      check_interval := p.check_interval.getD default_config.check_interval
      monitoring_window :=
        p.monitoring_window.getD default_config.monitoring_window
      percentage := p.percentage.getD default_config.percentage
      evidence_folder := p.evidence_folder.getD default_config.evidence_folder
      log_file := p.log_file.getD default_config.log_file }

/-! ## Monitor state (`CPUMonitor` mutable fields used by the engine) -/

structure MonitorState where
  process_names : List String
  cpu_threshold : ℚ
  check_interval : Int
  monitoring_window : Int
  percentage : Int
  max_readings : Int
  config_last_modified : ℚ
  process_readings : String → Option CircularBuffer
  process_window_start : String → Option ℚ

/-- The state right after `CPUMonitor.__init__` allocates its empty
dictionaries, before `reload_config` runs. -/
def emptyState : MonitorState :=
  { process_names := []
    cpu_threshold := 0
    check_interval := 0
    monitoring_window := 0
    percentage := 0
    max_readings := 0
    config_last_modified := 0
    process_readings := fun _ => none
    process_window_start := fun _ => none }

def updateFn {α : Type} (f : String → α) (n : String) (v : α) :
    String → α :=
  fun m => if m = n then v else f m

/-- `CPUMonitor.reload_config`.  `file = none`: `os.path.getmtime` raised
(`OSError`/`FileNotFoundError`), nothing happens and `False` is
returned.  Otherwise the file's mtime and parse result are given; the
config is re-read only when the mtime advanced.  `max_readings` is
`monitoring_window // check_interval + 5` (Python floor division). -/
def reload_config (s : MonitorState)
    (file : Option (ℚ × Option PartialConfig)) : MonitorState × Bool :=
  match file with
  | none => (s, false)
  | some (mtime, parsed) =>
    if s.config_last_modified < mtime then
      let cfg := load_config parsed
      ({ s with
          process_names := cfg.process_names
          cpu_threshold := cfg.cpu_threshold
          check_interval := cfg.check_interval
          monitoring_window := cfg.monitoring_window
          percentage := cfg.percentage
          max_readings := cfg.monitoring_window.fdiv cfg.check_interval + 5
          config_last_modified := mtime }, true)
    else (s, false)

/-- `CPUMonitor._initialize_buffers`: a fresh buffer and a `None` window
start for every configured name not yet present. -/
def initEntry (st : MonitorState) (n : String) : MonitorState :=
  match st.process_readings n with
  | some _ => st
  | none =>
    { st with
      process_readings :=
        updateFn st.process_readings n
          (some (CircularBuffer.new st.max_readings.toNat))
      process_window_start := updateFn st.process_window_start n none }

def init_buffers (s : MonitorState) : MonitorState :=
  s.process_names.foldl initEntry s

/-- The in-loop hot reload (`monitor` lines 553-557): re-read the config
and re-initialise buffers only when `reload_config` returned `True`. -/
def reloadStep (s : MonitorState)
    (file : Option (ℚ × Option PartialConfig)) : MonitorState :=
  let r := reload_config s file
  if r.2 then init_buffers r.1 else r.1

/-- `CPUMonitor.__init__` with a readable config file: reload from the
empty state, then initialise the buffers. -/
def initMonitor (mtime : ℚ) (parsed : Option PartialConfig) : MonitorState :=
  init_buffers (reload_config emptyState (some (mtime, parsed))).1

/-! ## Process census (`CPUMonitor.get_process_cpu_usage`)

The subprocess call and the textual parsing of `ps` output are external;
the embedding starts at the already-parsed rows (pid, cpu, command).
`PsOutcome.err` models `subprocess.CalledProcessError` /
`subprocess.TimeoutExpired` (and, for the fallback, its bare `except`). -/

/-- One observed process instance as stored in the `processes` dict. -/
structure PsInstance where
  pid : Int
  cpu : ℚ
  command : String
deriving DecidableEq

/-- One parsed row of `ps` output. -/
structure PsRow where
  pid : Int
  cpu : ℚ
  command : String
deriving DecidableEq

inductive PsOutcome where
  | ok : List PsRow → PsOutcome
  | err : PsOutcome
deriving DecidableEq

/-- Character-list prefix test (used only to express Python's substring
operator `in`). -/
def lPre : List Char → List Char → Bool
  | [], _ => true
  | _ :: _, [] => false
  | a :: as, b :: bs => a = b && lPre as bs

/-- Python's `needle in hay` on strings: substring containment. -/
def lSub (needle hay : List Char) : Bool :=
  (List.range (hay.length + 1)).any (fun i => lPre needle (hay.drop i))

/-- `CPUMonitor._match_process_name` (cache omitted — it is a pure
memoisation): first configured name whose lower-case form is a substring
of the lower-cased command. -/
def match_process_name (names : List String) (command : String) :
    Option String :=
  names.find? (fun n => lSub n.toLower.toList command.toLower.toList)

/-- Appending an instance under its matched name in the `processes`
dict: extend the existing entry in place, or add a new key. -/
def insertInstance (acc : List (String × List PsInstance)) (k : String)
    (v : PsInstance) : List (String × List PsInstance) :=
  match acc with
  | [] => [(k, [v])]
  | (k', vs) :: rest =>
    if k' = k then (k', vs ++ [v]) :: rest
    else (k', vs) :: insertInstance rest k v

/-- Main-branch row processing: `ps` output is sorted by CPU descending,
so the loop `break`s at the first row with cpu < 0.1; each remaining row
is matched case-insensitively against the monitored names and grouped,
with the command truncated to 100 characters. -/
def processMainRows (names : List String) (rows : List PsRow) :
    List (String × List PsInstance) :=
  (rows.takeWhile (fun r => decide ((1 : ℚ)/10 ≤ r.cpu))).foldl
    (fun acc r =>
      match match_process_name names r.command with
      | some matched =>
        insertInstance acc matched ⟨r.pid, r.cpu, r.command.take 100⟩
      | none => acc)
    []

/-- Fallback (`ps aux`) row processing: no early break, rows below
cpu 0.1 are skipped individually, commands truncated to 50 chars. -/
def processFallbackRows (names : List String) (rows : List PsRow) :
    List (String × List PsInstance) :=
  rows.foldl
    (fun acc r =>
      if decide ((1 : ℚ)/10 ≤ r.cpu) then
        match match_process_name names r.command with
        | some matched =>
          insertInstance acc matched ⟨r.pid, r.cpu, r.command.take 50⟩
        | none => acc
      else acc)
    []

/-- `CPUMonitor.get_process_cpu_usage`: on main-command failure try the
fallback; if that also fails, return the empty mapping and the current
time instead of propagating the error. -/
def get_process_cpu_usage (names : List String) (main fb : PsOutcome)
    (now : ℚ) : List (String × List PsInstance) × ℚ :=
  match main with
  | .ok rows => (processMainRows names rows, now)
  | .err =>
    match fb with
    | .ok rows => (processFallbackRows names rows, now)
    | .err => ([], now)

/-! ## One iteration of the monitoring loop (`CPUMonitor.monitor`) -/

/-- Python `max(instances, key=lambda x: x['cpu'])`: first instance with
the maximal cpu. -/
def maxByCpu (x : PsInstance) (xs : List PsInstance) : PsInstance :=
  xs.foldl (fun acc y => if acc.cpu < y.cpu then y else acc) x

/-- The buffer used for an observed name: the existing one, or a fresh
`CircularBuffer(self.max_readings)` when the name is new (lines
568-570). -/
def baseBufOf (s : MonitorState) (name : String) : CircularBuffer :=
  match s.process_readings name with
  | none => CircularBuffer.new s.max_readings.toNat
  | some b => b

/-- The window start seen by lines 570 and 580: `timestamp` when the
name is new, otherwise the stored value. -/
def baseWsOf (s : MonitorState) (name : String) (ts : ℚ) : Option ℚ :=
  match s.process_readings name with
  | none => some ts
  | some _ => s.process_window_start name

/-- Lines 567-581 for a single `(process_name, instances)` entry:
append one sample — the max-CPU instance's cpu and pid — and set the
window start if it was `None`.  An empty instance list would make
Python's `max` raise, aborting the tick; such entries never come out of
`get_process_cpu_usage`, and theorems over arbitrary inputs carry a
nonemptiness hypothesis. -/
def appendEntry (ts : ℚ) (s : MonitorState)
    (entry : String × List PsInstance) : MonitorState :=
  match entry.2 with
  | [] => s
  | inst :: rest =>
    let name := entry.1
    let m := maxByCpu inst rest
    let ws1 : Option ℚ :=
      match baseWsOf s name ts with
      | none => some ts
      | some w => some w
    { s with
      process_readings :=
        updateFn s.process_readings name
          (some ((baseBufOf s name).append ts m.cpu m.pid))
      process_window_start := updateFn s.process_window_start name ws1 }

def appendPhase (s : MonitorState)
    (ps : List (String × List PsInstance)) (ts : ℚ) : MonitorState :=
  ps.foldl (appendEntry ts) s

/-- The completeness test of lines 589-590: `window_start` truthy
(not `None`, not zero) and elapsed time at least the monitoring
window. -/
def windowElapsed (ws : Option ℚ) (ts window : ℚ) : Bool :=
  match ws with
  | none => false
  | some w => decide (w ≠ 0) && decide (window ≤ ts - w)

/-- `completed_processes` (lines 587-592): configured names with a
buffer whose window start is truthy and old enough. -/
def completedOf (s : MonitorState) (ts : ℚ) : List String :=
  s.process_names.filter
    (fun n => (s.process_readings n).isSome &&
      windowElapsed (s.process_window_start n) ts (s.monitoring_window : ℚ))

/-- Lines 608-610: share of values strictly above the threshold, as a
percentage. -/
def percent_above_threshold (values : List ℚ) (threshold : ℚ) : ℚ :=
  ((values.filter (fun v => threshold < v)).length : ℚ)
    / (values.length : ℚ) * 100

/-- The recent values a completed entity is evaluated on (line 605). -/
def recentValues (s : MonitorState) (n : String) (ts : ℚ) : List ℚ :=
  (baseBufOf s n).get_recent_values (s.monitoring_window : ℚ) ts

/-- Lines 607-621 for one completed entity: the statistic, or zero when
fewer than 10 recent samples exist. -/
def entryStat (s : MonitorState) (n : String) (ts : ℚ) : ℚ :=
  let v := recentValues s n ts
  if 10 ≤ v.length then percent_above_threshold v s.cpu_threshold else 0

/-- The `process_percentiles` dict as a total function (0 outside the
completed set, where the dict has no entry). -/
def percentilesOf (s : MonitorState) (ts : ℚ) : String → ℚ :=
  fun n => if n ∈ completedOf s ts then entryStat s n ts else 0

/-- `triggering_processes` (lines 607-618): completed entities with at
least 10 recent samples whose statistic reaches the required
percentage. -/
def triggeringOf (s : MonitorState) (ts : ℚ) : List String :=
  (completedOf s ts).filter
    (fun n =>
      decide (10 ≤ (recentValues s n ts).length) &&
      decide ((s.percentage : ℚ) ≤
        percent_above_threshold (recentValues s n ts) s.cpu_threshold))

/-- Lines 669-670 / 679-680 for one entity: clear its buffer and restart
its window at the tick's sample timestamp. -/
def clearEntity (ts : ℚ) (s : MonitorState) (n : String) : MonitorState :=
  { s with
    process_readings :=
      updateFn s.process_readings n
        ((s.process_readings n).map CircularBuffer.clear)
    process_window_start := updateFn s.process_window_start n (some ts) }

/-- State effect of lines 624-681 after the appends: if an alert fires
and evidence persistence fails, the raised exception reaches the outer
`except` before any reset runs; otherwise the triggering entities are
cleared (line 667-670) and then the completed non-triggering ones
(line 676-681). -/
def stepStateCore (s1 : MonitorState) (ts : ℚ) (persistOk : Bool) :
    MonitorState :=
  let triggering := triggeringOf s1 ts
  if !triggering.isEmpty && !persistOk then s1
  else
    let s2 := triggering.foldl (clearEntity ts) s1
    ((completedOf s1 ts).filter (fun n => decide (n ∉ triggering))).foldl
      (clearEntity ts) s2

structure StepResult where
  state : MonitorState
  completed : List String
  triggering : List String
  percentiles : String → ℚ
  aborted : Bool

/-- One iteration of the `while True` loop of `CPUMonitor.monitor`
(lines 548-699), given the acquired process mapping and its sample
timestamp.  An empty mapping skips the whole body (lines 562-564).
`persistOk = false` models a failing evidence write (lines 656-662):
the tick is aborted by the exception and caught at line 704. -/
def monitorStep (s : MonitorState) (ps : List (String × List PsInstance))
    (ts : ℚ) (persistOk : Bool) : StepResult :=
  if ps.isEmpty then
    { state := s, completed := [], triggering := [],
      percentiles := fun _ => 0, aborted := false }
  else
    let s1 := appendPhase s ps ts
    { state := stepStateCore s1 ts persistOk
      completed := completedOf s1 ts
      triggering := triggeringOf s1 ts
      percentiles := percentilesOf s1 ts
      aborted := !persistOk && !(triggeringOf s1 ts).isEmpty }

/-! ## Specification-side helpers (proved equal to / about the code) -/

/-- The logical content of a circular buffer, oldest→newest: the last
`count` slots written. -/
def storedList (b : CircularBuffer) : List Reading :=
  if b.count < b.size then b.buffer.take b.count
  else b.buffer.drop b.pos ++ b.buffer.take b.pos

/-- Well-formedness of a buffer, established at creation and preserved
by `append` and `clear`. -/
structure BufWF (b : CircularBuffer) : Prop where
  len_eq : b.buffer.length = b.size
  size_pos : 0 < b.size
  pos_lt : b.pos < b.size
  count_le : b.count ≤ b.size
  pos_eq : b.count < b.size → b.pos = b.count

/-- The reading produced by `append t cpu pid`. -/
def toReading (e : ℚ × ℚ × Int) : Reading :=
  ⟨some e.1, e.2.1, e.2.2⟩

/-- `n` appends into a fresh buffer of capacity `c`. -/
def appendAll (c : Nat) (l : List (ℚ × ℚ × Int)) : CircularBuffer :=
  l.foldl (fun b e => b.append e.1 e.2.1 e.2.2) (CircularBuffer.new c)

/-- The window invariant: every buffer is well formed, a window without
a start is empty, and every retained sample has a (set) timestamp that
is at most the last tick time `T` and at least the entity's window
start. -/
def InvAt (s : MonitorState) (T : ℚ) : Prop :=
  ∀ n : String,
    (∀ b, s.process_readings n = some b →
      BufWF b ∧
      (s.process_window_start n = none → storedList b = []) ∧
      ∀ r ∈ storedList b, ∃ t, r.timestamp = some t ∧ t ≤ T ∧
        ∀ w, s.process_window_start n = some w → w ≤ t) ∧
    ∀ w, s.process_window_start n = some w → w ≤ T

/-- States reachable by the monitoring loop, paired with the latest
sample timestamp `T` seen so far.  Ticks carry timestamps that never
decrease (`time.time()` is monotone across the loop's sequential
ticks), and every configuration in force yields a positive buffer
capacity (`monitoring_window // check_interval + 5`). -/
inductive Reachable : MonitorState → ℚ → Prop where
  | base (mtime : ℚ) (parsed : Option PartialConfig) (t0 : ℚ)
      (hpos : 0 < (reload_config emptyState (some (mtime, parsed))).1.max_readings) :
      Reachable (initMonitor mtime parsed) t0
  | tick {s : MonitorState} {T : ℚ} (ps : List (String × List PsInstance))
      (ts : ℚ) (persistOk : Bool) (h : Reachable s T) (hts : T ≤ ts)
      (hpos : 0 < s.max_readings) :
      Reachable (monitorStep s ps ts persistOk).state ts
  | reload {s : MonitorState} {T : ℚ}
      (file : Option (ℚ × Option PartialConfig)) (h : Reachable s T)
      (hpos : 0 < (reload_config s file).1.max_readings) :
      Reachable (reloadStep s file) T

/-! ## Concrete scenarios (used by witnesses and counterexamples) -/

def pJava : String := "java"

/-- Ten samples of 90% CPU at timestamps 1, 11, …, 91. -/
def demoBufA : CircularBuffer :=
  appendAll 15 ((List.range 10).map (fun i => ((1 + 10 * i : ℚ), 90, 7)))

/-- A monitor watching `java` with threshold 50, window 100 s, required
percentage 80, whose `java` window started at time 1 and already holds
`demoBufA`. -/
def demoStateA : MonitorState :=
  { emptyState with
      process_names := [pJava]
      cpu_threshold := 50
      monitoring_window := 100
      percentage := 80
      max_readings := 15
      process_readings := updateFn emptyState.process_readings pJava (some demoBufA)
      process_window_start := updateFn emptyState.process_window_start pJava (some 1) }

def demoPsA : List (String × List PsInstance) := [(pJava, [⟨7, 90, pJava⟩])]

/-- Three samples of 99% CPU (above threshold) at timestamps 1, 11, 21. -/
def demoBufB : CircularBuffer :=
  appendAll 15 ((List.range 3).map (fun i => ((1 + 10 * i : ℚ), 99, 7)))

/-- Like `demoStateA` but with only three retained samples: at tick 101
the window is complete by elapsed time yet holds fewer than 10
samples. -/
def demoStateB : MonitorState :=
  { demoStateA with
      process_readings := updateFn emptyState.process_readings pJava (some demoBufB) }

def demoPsB : List (String × List PsInstance) := [(pJava, [⟨7, 99, pJava⟩])]

/-- The `java` buffer after the appends of tick 101 in scenario B. -/
def demoBufB1 : CircularBuffer :=
  baseBufOf (appendPhase demoStateB demoPsB 101) pJava

/-- A monitor whose active configuration differs from the defaults
(threshold 80 instead of 95), with a config file last read at mtime 1. -/
def demoCfgState : MonitorState :=
  { emptyState with
      process_names := [pJava]
      cpu_threshold := 80
      monitoring_window := 200
      config_last_modified := 1 }

/-- Three instances sharing one process name: CPUs 50, 70, 70 — the
appended sample must be the first maximal one (pid 2, cpu 70). -/
def demoInstances : List PsInstance :=
  [⟨1, 50, pJava⟩, ⟨2, 70, pJava⟩, ⟨3, 70, pJava⟩]

def demoStateC : MonitorState :=
  { emptyState with process_names := [pJava], max_readings := 15 }

def demoPsC : List (String × List PsInstance) := [(pJava, demoInstances)]

/-- Five appends for the capacity-3 ring-buffer witness. -/
def demoL : List (ℚ × ℚ × Int) :=
  [(1, 10, 1), (2, 20, 2), (3, 30, 3), (4, 40, 4), (5, 50, 5)]

def demoPs8 : List (String × List PsInstance) := [(pJava, [⟨7, 50, pJava⟩])]

/-- A reachable state: start from the default configuration, run one
tick at time 5 observing one `java` instance. -/
def witState8 : MonitorState :=
  (monitorStep (initMonitor 1 none) demoPs8 5 true).state

def witBuf8 : CircularBuffer := baseBufOf witState8 pJava

/-! ## Ring-buffer correctness -/

theorem bufWF_new {c : Nat} (hc : 0 < c) : BufWF (CircularBuffer.new c) where
  len_eq := by simp [CircularBuffer.new]
  size_pos := hc
  pos_lt := hc
  count_le := Nat.zero_le _
  pos_eq := fun _ => rfl

theorem append_size (b : CircularBuffer) (t v : ℚ) (p : Int) :
    (b.append t v p).size = b.size := rfl

theorem append_count {b : CircularBuffer} (hb : b.count ≤ b.size)
    (t v : ℚ) (p : Int) :
    (b.append t v p).count = min (b.count + 1) b.size := by
  simp only [CircularBuffer.append]
  split <;> omega

theorem bufWF_append {b : CircularBuffer} (hb : BufWF b) (t v : ℚ) (p : Int) :
    BufWF (b.append t v p) where
  len_eq := by simp [CircularBuffer.append, hb.len_eq]
  size_pos := hb.size_pos
  pos_lt := by
    simp only [CircularBuffer.append]
    exact Nat.mod_lt _ hb.size_pos
  count_le := by
    have h1 := hb.count_le
    simp only [CircularBuffer.append]
    split <;> omega
  pos_eq := by
    intro h
    have h1 := hb.count_le
    by_cases hlt : b.count < b.size
    · have hp := hb.pos_eq hlt
      simp only [CircularBuffer.append, if_pos hlt] at h ⊢
      have h2 : b.count + 1 < b.size := h
      rw [hp, Nat.mod_eq_of_lt h2]
    · simp only [CircularBuffer.append, if_neg hlt] at h
      exact absurd h hlt

theorem storedList_append {b : CircularBuffer} (hb : BufWF b) (t v : ℚ)
    (p : Int) :
    storedList (b.append t v p) =
      (if b.count < b.size then storedList b else (storedList b).drop 1) ++
        [⟨some t, v, p⟩] := by
  set x : Reading := ⟨some t, v, p⟩ with hx
  by_cases hlt : b.count < b.size
  · have hq := hb.pos_eq hlt
    have hcl : b.count < b.buffer.length := by rw [hb.len_eq]; exact hlt
    have hset : b.buffer.set b.pos x =
        b.buffer.take b.count ++ x :: b.buffer.drop (b.count + 1) := by
      rw [hq]; exact List.set_eq_take_cons_drop x hcl
    have hlenA : (b.buffer.take b.count).length = b.count := by
      rw [List.length_take]; omega
    rw [if_pos hlt]
    by_cases h2 : b.count + 1 < b.size
    · have : storedList (b.append t v p) =
          (b.buffer.set b.pos x).take (b.count + 1) := by
        simp only [storedList, CircularBuffer.append, if_pos hlt,
          List.length_set, if_pos h2]
      rw [this, hset, List.take_append_eq_append_take, hlenA,
        List.take_of_length_le (by omega), Nat.add_sub_cancel_left,
        List.take_succ_cons, List.take_zero, storedList, if_pos hlt]
    · have hceq : b.count + 1 = b.size := by omega
      have hpos' : (b.pos + 1) % b.size = 0 := by
        rw [hq, hceq]; exact Nat.mod_self _
      have hdropnil : b.buffer.drop (b.count + 1) = [] :=
        List.drop_of_length_le (by rw [hb.len_eq]; omega)
      have : storedList (b.append t v p) = b.buffer.set b.pos x := by
        simp only [storedList, CircularBuffer.append, if_pos hlt,
          List.length_set, hceq, lt_irrefl, if_false, hpos', List.drop_zero,
          List.take_zero, List.append_nil]
      rw [this, hset, hdropnil, storedList, if_pos hlt]
  · have hceq : b.count = b.size := le_antisymm hb.count_le (not_lt.1 hlt)
    have hql : b.pos < b.buffer.length := by rw [hb.len_eq]; exact hb.pos_lt
    have hset : b.buffer.set b.pos x =
        b.buffer.take b.pos ++ x :: b.buffer.drop (b.pos + 1) :=
      List.set_eq_take_cons_drop x hql
    have hlenD : (b.buffer.drop b.pos).length = b.size - b.pos := by
      rw [List.length_drop, hb.len_eq]
    have hone : 1 ≤ b.size - b.pos := by
      have := hb.pos_lt; omega
    have hrhs : (storedList b).drop 1 =
        b.buffer.drop (b.pos + 1) ++ b.buffer.take b.pos := by
      rw [storedList, if_neg hlt, List.drop_append_eq_append_drop, hlenD,
        Nat.sub_eq_zero_of_le hone, List.drop_zero, List.drop_drop,
        Nat.add_comm]
    rw [if_neg hlt, hrhs]
    have hcount' : (b.append t v p).count = b.size := by
      simp only [CircularBuffer.append, if_neg hlt]; exact hceq
    by_cases hq2 : b.pos + 1 < b.size
    · have hpos' : (b.pos + 1) % b.size = b.pos + 1 := Nat.mod_eq_of_lt hq2
      have hLHS : storedList (b.append t v p) =
          (b.buffer.set b.pos x).drop (b.pos + 1) ++
            (b.buffer.set b.pos x).take (b.pos + 1) := by
        simp only [storedList, CircularBuffer.append, if_neg hlt,
          List.length_set, hceq, lt_irrefl, if_false, hpos']
      have hlenT : (b.buffer.take b.pos).length = b.pos := by
        rw [List.length_take]; omega
      have hdrop : (b.buffer.set b.pos x).drop (b.pos + 1) =
          b.buffer.drop (b.pos + 1) := by
        rw [hset, List.drop_append_eq_append_drop, hlenT,
          List.drop_of_length_le
            (show (b.buffer.take b.pos).length ≤ b.pos + 1 by
              rw [hlenT]; omega)]
        simp
      have htake : (b.buffer.set b.pos x).take (b.pos + 1) =
          b.buffer.take b.pos ++ [x] := by
        rw [hset, List.take_append_eq_append_take, hlenT,
          List.take_of_length_le (by omega), Nat.add_sub_cancel_left,
          List.take_succ_cons, List.take_zero]
      rw [hLHS, hdrop, htake, List.append_assoc]
    · have hq3 : b.pos + 1 = b.size := by have := hb.pos_lt; omega
      have hpos' : (b.pos + 1) % b.size = 0 := by rw [hq3]; exact Nat.mod_self _
      have hLHS : storedList (b.append t v p) = b.buffer.set b.pos x := by
        simp only [storedList, CircularBuffer.append, if_neg hlt,
          List.length_set, hceq, lt_irrefl, if_false, hpos', List.drop_zero,
          List.take_zero, List.append_nil]
      have hdropnil : b.buffer.drop (b.pos + 1) = [] :=
        List.drop_of_length_le (by rw [hb.len_eq]; omega)
      rw [hLHS, hset, hdropnil]
      simp

theorem get_values_eq_storedList {b : CircularBuffer} (hb : BufWF b) :
    b.get_values = (storedList b).map Reading.cpu := by
  by_cases h0 : b.count = 0
  · simp only [CircularBuffer.get_values, storedList, h0]
    simp [hb.size_pos]
  · by_cases hlt : b.count < b.size <;>
      simp [CircularBuffer.get_values, storedList, h0, hlt]

theorem bufWF_clear {b : CircularBuffer} (hb : BufWF b) : BufWF b.clear where
  len_eq := hb.len_eq
  size_pos := hb.size_pos
  pos_lt := hb.size_pos
  count_le := Nat.zero_le _
  pos_eq := fun _ => rfl

theorem storedList_clear {b : CircularBuffer} (hb : 0 < b.size) :
    storedList b.clear = [] := by
  simp [storedList, CircularBuffer.clear, hb]

theorem clear_count (b : CircularBuffer) : b.clear.count = 0 := rfl

theorem clear_get_values (b : CircularBuffer) : b.clear.get_values = [] := rfl

theorem grvAux_length (b : CircularBuffer) (cutoff : ℚ) :
    ∀ rem i, (b.grvAux cutoff rem i).length ≤ rem := by
  intro rem
  induction rem with
  | zero => intro i; simp [CircularBuffer.grvAux]
  | succ k ih =>
    intro i
    simp only [CircularBuffer.grvAux]
    split
    · simp
    · split
      · simpa using ih (i + 1)
      · simp

theorem grv_length_le (b : CircularBuffer) (w now : ℚ) :
    (b.get_recent_values w now).length ≤ b.count := by
  rw [CircularBuffer.get_recent_values]
  split
  · simp
  · exact grvAux_length b _ b.count 0

theorem appendAll_spec (c : Nat) (hc : 0 < c) (l : List (ℚ × ℚ × Int)) :
    BufWF (appendAll c l) ∧ (appendAll c l).size = c ∧
    (appendAll c l).count = min l.length c ∧
    storedList (appendAll c l) = (l.map toReading).drop (l.length - c) := by
  induction l using List.reverseRecOn with
  | nil =>
    refine ⟨bufWF_new hc, rfl, by simp [appendAll, CircularBuffer.new], ?_⟩
    simp [appendAll, CircularBuffer.new, storedList, hc]
  | append_singleton l e ih =>
    obtain ⟨hwf, hsize, hcount, hstored⟩ := ih
    have hstep : appendAll c (l ++ [e]) =
        (appendAll c l).append e.1 e.2.1 e.2.2 := by
      simp [appendAll]
    refine ⟨hstep ▸ bufWF_append hwf _ _ _, by rw [hstep, append_size, hsize],
      ?_, ?_⟩
    · rw [hstep, append_count hwf.count_le, hcount, hsize]
      simp only [List.length_append, List.length_cons, List.length_nil]
      omega
    · rw [hstep, storedList_append hwf, hcount, hsize]
      have hre : (⟨some e.1, e.2.1, e.2.2⟩ : Reading) = toReading e := rfl
      rw [hre]
      by_cases hlc : l.length < c
      · rw [if_pos (by omega), hstored, Nat.sub_eq_zero_of_le (le_of_lt hlc),
          List.drop_zero]
        have : l.length + 1 - c = 0 := by omega
        simp [this, List.map_append]
      · rw [if_neg (by omega), hstored, List.drop_drop]
        have hlen2 : (l ++ [e]).length = l.length + 1 := by simp
        have hmap2 : (l ++ [e]).map toReading =
            l.map toReading ++ [toReading e] := by simp
        rw [hlen2, hmap2, List.drop_append_eq_append_drop, List.length_map]
        have e1 : l.length - c + 1 = l.length + 1 - c := by omega
        have e2 : l.length + 1 - c - l.length = 0 := by omega
        rw [e1, e2, List.drop_zero]

/-- C9 helper: the cpu values stored after a run of appends. -/
theorem appendAll_get_values (c : Nat) (hc : 0 < c)
    (l : List (ℚ × ℚ × Int)) :
    (appendAll c l).get_values =
      (l.map (fun e => e.2.1)).drop (l.length - c) := by
  obtain ⟨hwf, -, -, hstored⟩ := appendAll_spec c hc l
  rw [get_values_eq_storedList hwf, hstored, ← List.map_drop, ← List.map_drop,
    List.map_map]
  rfl

/-! ## Step decomposition lemmas -/

theorem appendPhase_cons (s : MonitorState) (e : String × List PsInstance)
    (rest : List (String × List PsInstance)) (ts : ℚ) :
    appendPhase s (e :: rest) ts = appendPhase (appendEntry ts s e) rest ts :=
  rfl

theorem appendEntry_config (ts : ℚ) (s : MonitorState)
    (e : String × List PsInstance) :
    (appendEntry ts s e).process_names = s.process_names ∧
    (appendEntry ts s e).cpu_threshold = s.cpu_threshold ∧
    (appendEntry ts s e).monitoring_window = s.monitoring_window ∧
    (appendEntry ts s e).percentage = s.percentage ∧
    (appendEntry ts s e).max_readings = s.max_readings := by
  rcases e with ⟨n, _ | ⟨i, rest⟩⟩ <;> exact ⟨rfl, rfl, rfl, rfl, rfl⟩

theorem appendPhase_config (s : MonitorState)
    (ps : List (String × List PsInstance)) (ts : ℚ) :
    (appendPhase s ps ts).process_names = s.process_names ∧
    (appendPhase s ps ts).cpu_threshold = s.cpu_threshold ∧
    (appendPhase s ps ts).monitoring_window = s.monitoring_window ∧
    (appendPhase s ps ts).percentage = s.percentage ∧
    (appendPhase s ps ts).max_readings = s.max_readings := by
  induction ps generalizing s with
  | nil => exact ⟨rfl, rfl, rfl, rfl, rfl⟩
  | cons e rest ih =>
    have h1 := appendEntry_config ts s e
    have h2 := ih (appendEntry ts s e)
    rw [appendPhase_cons]
    exact ⟨h2.1.trans h1.1, h2.2.1.trans h1.2.1, h2.2.2.1.trans h1.2.2.1,
      h2.2.2.2.1.trans h1.2.2.2.1, h2.2.2.2.2.trans h1.2.2.2.2⟩

theorem appendEntry_ne {e : String × List PsInstance} {p : String}
    (h : e.1 ≠ p) (ts : ℚ) (s : MonitorState) :
    (appendEntry ts s e).process_readings p = s.process_readings p ∧
    (appendEntry ts s e).process_window_start p = s.process_window_start p := by
  rcases e with ⟨n, _ | ⟨i, rest⟩⟩
  · exact ⟨rfl, rfl⟩
  · have h' : p ≠ n := Ne.symm h
    constructor <;> simp [appendEntry, updateFn, h']

theorem appendPhase_not_mem {ps : List (String × List PsInstance)}
    {p : String} (h : p ∉ ps.map Prod.fst) (s : MonitorState) (ts : ℚ) :
    (appendPhase s ps ts).process_readings p = s.process_readings p ∧
    (appendPhase s ps ts).process_window_start p = s.process_window_start p := by
  induction ps generalizing s with
  | nil => exact ⟨rfl, rfl⟩
  | cons e rest ih =>
    simp only [List.map_cons, List.mem_cons, not_or] at h
    have h1 := appendEntry_ne (e := e) (p := p) (fun he => h.1 he.symm) ts s
    have h2 := ih h.2 (appendEntry ts s e)
    rw [appendPhase_cons]
    exact ⟨h2.1.trans h1.1, h2.2.trans h1.2⟩

theorem clearOpt_idem (x : Option CircularBuffer) :
    x.map (CircularBuffer.clear ∘ CircularBuffer.clear) =
      x.map CircularBuffer.clear := by
  cases x <;> rfl

theorem foldl_clear_proj (ts : ℚ) (L : List String) (s : MonitorState)
    (p : String) :
    ((L.foldl (clearEntity ts) s).process_readings p =
      if p ∈ L then (s.process_readings p).map CircularBuffer.clear
      else s.process_readings p) ∧
    ((L.foldl (clearEntity ts) s).process_window_start p =
      if p ∈ L then some ts else s.process_window_start p) := by
  induction L generalizing s with
  | nil => simp
  | cons q rest ih =>
    by_cases hpq : p = q
    · subst hpq
      have hr : (clearEntity ts s p).process_readings p =
          (s.process_readings p).map CircularBuffer.clear := by
        simp [clearEntity, updateFn]
      have hw : (clearEntity ts s p).process_window_start p = some ts := by
        simp [clearEntity, updateFn]
      constructor
      · rw [List.foldl_cons, (ih (clearEntity ts s p)).1, hr]
        by_cases hmem : p ∈ rest <;> simp [hmem, clearOpt_idem]
      · rw [List.foldl_cons, (ih (clearEntity ts s p)).2, hw]
        by_cases hmem : p ∈ rest <;> simp [hmem]
    · have hr : (clearEntity ts s q).process_readings p =
          s.process_readings p := by
        simp [clearEntity, updateFn, hpq]
      have hw : (clearEntity ts s q).process_window_start p =
          s.process_window_start p := by
        simp [clearEntity, updateFn, hpq]
      constructor
      · rw [List.foldl_cons, (ih (clearEntity ts s q)).1, hr]
        simp [List.mem_cons, hpq]
      · rw [List.foldl_cons, (ih (clearEntity ts s q)).2, hw]
        simp [List.mem_cons, hpq]

theorem windowElapsed_iff {ws : Option ℚ} {ts window : ℚ} :
    windowElapsed ws ts window = true ↔
      ∃ w, ws = some w ∧ w ≠ 0 ∧ window ≤ ts - w := by
  cases ws with
  | none => simp [windowElapsed]
  | some w => simp [windowElapsed]

theorem mem_completedOf {s : MonitorState} {ts : ℚ} {p : String} :
    p ∈ completedOf s ts ↔
      p ∈ s.process_names ∧ (s.process_readings p).isSome ∧
      windowElapsed (s.process_window_start p) ts
        (s.monitoring_window : ℚ) = true := by
  simp [completedOf, List.mem_filter, and_assoc]

theorem mem_triggeringOf {s : MonitorState} {ts : ℚ} {p : String} :
    p ∈ triggeringOf s ts ↔
      p ∈ completedOf s ts ∧ 10 ≤ (recentValues s p ts).length ∧
      (s.percentage : ℚ) ≤
        percent_above_threshold (recentValues s p ts) s.cpu_threshold := by
  simp [triggeringOf, List.mem_filter, and_assoc]

theorem monitorStep_nil (s : MonitorState) (ts : ℚ) (ok : Bool) :
    monitorStep s [] ts ok =
      { state := s, completed := [], triggering := [],
        percentiles := fun _ => 0, aborted := false } := rfl

theorem monitorStep_proj {ps : List (String × List PsInstance)}
    (hne : ps ≠ []) (s : MonitorState) (ts : ℚ) (ok : Bool) :
    (monitorStep s ps ts ok).state =
      stepStateCore (appendPhase s ps ts) ts ok ∧
    (monitorStep s ps ts ok).completed =
      completedOf (appendPhase s ps ts) ts ∧
    (monitorStep s ps ts ok).triggering =
      triggeringOf (appendPhase s ps ts) ts ∧
    (monitorStep s ps ts ok).percentiles =
      percentilesOf (appendPhase s ps ts) ts ∧
    (monitorStep s ps ts ok).aborted =
      (!ok && !(triggeringOf (appendPhase s ps ts) ts).isEmpty) := by
  have h : ps.isEmpty = false := by simpa using hne
  simp [monitorStep, h]

theorem stepStateCore_persist (s1 : MonitorState) (ts : ℚ) :
    stepStateCore s1 ts true =
      ((completedOf s1 ts).filter
        (fun n => decide (n ∉ triggeringOf s1 ts))).foldl
        (clearEntity ts) ((triggeringOf s1 ts).foldl (clearEntity ts) s1) := by
  simp [stepStateCore]

theorem stepStateCore_abort {s1 : MonitorState} {ts : ℚ}
    (h : triggeringOf s1 ts ≠ []) :
    stepStateCore s1 ts false = s1 := by
  have h' : (triggeringOf s1 ts).isEmpty = false := by simpa using h
  simp [stepStateCore, h']

theorem maxByCpu_spec (x : PsInstance) (xs : List PsInstance) :
    maxByCpu x xs ∈ x :: xs ∧
    ∀ i ∈ x :: xs, i.cpu ≤ (maxByCpu x xs).cpu := by
  induction xs generalizing x with
  | nil =>
    refine ⟨List.mem_cons_self x [], ?_⟩
    intro i hi
    rw [List.mem_singleton.mp hi]
    exact le_refl _
  | cons y ys ih =>
    have hstep : maxByCpu x (y :: ys) =
        maxByCpu (if x.cpu < y.cpu then y else x) ys := rfl
    obtain ⟨h1, h2⟩ := ih (if x.cpu < y.cpu then y else x)
    have hxle : x.cpu ≤ (if x.cpu < y.cpu then y else x).cpu := by
      split <;> [exact le_of_lt (by assumption); exact le_refl _]
    have hyle : y.cpu ≤ (if x.cpu < y.cpu then y else x).cpu := by
      split <;> [exact le_refl _; exact le_of_not_lt (by assumption)]
    constructor
    · rw [hstep]
      rcases List.mem_cons.mp h1 with h | h
      · rw [h]
        split
        · exact List.mem_cons_of_mem _ (List.mem_cons_self _ _)
        · exact List.mem_cons_self _ _
      · exact List.mem_cons_of_mem _ (List.mem_cons_of_mem _ h)
    · intro i hi
      rw [hstep]
      have hmax := h2 _ (List.mem_cons_self _ _)
      rcases List.mem_cons.mp hi with h | h
      · rw [h]; exact le_trans hxle hmax
      · rcases List.mem_cons.mp h with h' | h'
        · rw [h']; exact le_trans hyle hmax
        · exact h2 i (List.mem_cons_of_mem _ h')

/-! ## Window-start invariant machinery (for C8) -/

theorem storedList_new {c : Nat} (hc : 0 < c) :
    storedList (CircularBuffer.new c) = [] := by
  simp [storedList, CircularBuffer.new, hc]

theorem storedList_append_subset {b : CircularBuffer} (hb : BufWF b)
    (t v : ℚ) (q : Int) :
    ∀ r ∈ storedList (b.append t v q), r = ⟨some t, v, q⟩ ∨ r ∈ storedList b := by
  intro r hr
  rw [storedList_append hb] at hr
  rcases List.mem_append.mp hr with h | h
  · right
    split at h
    · exact h
    · exact List.drop_subset _ _ h
  · left
    exact List.mem_singleton.mp h

theorem invAt_mono {s : MonitorState} {T T' : ℚ} (h : InvAt s T)
    (hT : T ≤ T') : InvAt s T' := by
  intro n
  obtain ⟨h1, h2⟩ := h n
  refine ⟨?_, fun w hw => le_trans (h2 w hw) hT⟩
  intro b hb
  obtain ⟨hwf, hemp, hmem⟩ := h1 b hb
  refine ⟨hwf, hemp, ?_⟩
  intro r hr
  obtain ⟨t, ht1, ht2, ht3⟩ := hmem r hr
  exact ⟨t, ht1, le_trans ht2 hT, ht3⟩

theorem appendEntry_inv {s : MonitorState} {T ts : ℚ}
    {e : String × List PsInstance} (h : InvAt s T) (hts : T ≤ ts)
    (hpos : 0 < s.max_readings) : InvAt (appendEntry ts s e) ts := by
  have hm := invAt_mono h hts
  rcases e with ⟨name, instances⟩
  cases instances with
  | nil => exact hm
  | cons i rest =>
    intro n
    by_cases hn : n = name
    · subst hn
      have hru : (appendEntry ts s (n, i :: rest)).process_readings n =
          some ((baseBufOf s n).append ts (maxByCpu i rest).cpu
            (maxByCpu i rest).pid) := by
        simp [appendEntry, updateFn]
      have hwfb : BufWF (baseBufOf s n) := by
        cases hcase : s.process_readings n with
        | none =>
          have hb0 : baseBufOf s n =
              CircularBuffer.new s.max_readings.toNat := by
            simp [baseBufOf, hcase]
          rw [hb0]
          exact bufWF_new (by omega)
        | some b0 =>
          have hb0 : baseBufOf s n = b0 := by simp [baseBufOf, hcase]
          rw [hb0]
          exact ((hm n).1 b0 hcase).1
      constructor
      · intro b hbeq
        rw [hru] at hbeq
        obtain rfl := (Option.some.inj hbeq).symm
        refine ⟨bufWF_append hwfb _ _ _, ?_, ?_⟩
        · intro hnone
          exfalso
          cases hws : baseWsOf s n ts with
          | none =>
            have hwse : (appendEntry ts s (n, i :: rest)).process_window_start
                n = some ts := by
              simp [appendEntry, updateFn, hws]
            rw [hwse] at hnone
            exact Option.noConfusion hnone
          | some w0 =>
            have hwse : (appendEntry ts s (n, i :: rest)).process_window_start
                n = some w0 := by
              simp [appendEntry, updateFn, hws]
            rw [hwse] at hnone
            exact Option.noConfusion hnone
        · intro r hr
          rcases storedList_append_subset hwfb ts (maxByCpu i rest).cpu
              (maxByCpu i rest).pid r hr with rfl | hold
          · refine ⟨ts, rfl, le_refl ts, ?_⟩
            intro w hw
            cases hcase : s.process_readings n with
            | none =>
              have hba : baseWsOf s n ts = some ts := by
                simp [baseWsOf, hcase]
              have hwse : (appendEntry ts s
                  (n, i :: rest)).process_window_start n = some ts := by
                simp [appendEntry, updateFn, hba]
              rw [hwse] at hw
              exact le_of_eq (Option.some.inj hw).symm
            | some b0 =>
              have hba : baseWsOf s n ts = s.process_window_start n := by
                simp [baseWsOf, hcase]
              cases hws : s.process_window_start n with
              | none =>
                have hwse : (appendEntry ts s
                    (n, i :: rest)).process_window_start n = some ts := by
                  simp [appendEntry, updateFn, hba, hws]
                rw [hwse] at hw
                exact le_of_eq (Option.some.inj hw).symm
              | some w0 =>
                have hwse : (appendEntry ts s
                    (n, i :: rest)).process_window_start n = some w0 := by
                  simp [appendEntry, updateFn, hba, hws]
                rw [hwse] at hw
                exact (Option.some.inj hw) ▸ ((hm n).2 w0 hws)
          · cases hcase : s.process_readings n with
            | none =>
              have hb0 : baseBufOf s n =
                  CircularBuffer.new s.max_readings.toNat := by
                simp [baseBufOf, hcase]
              rw [hb0, storedList_new (by omega)] at hold
              cases hold
            | some b0 =>
              have hb0 : baseBufOf s n = b0 := by simp [baseBufOf, hcase]
              rw [hb0] at hold
              obtain ⟨hwf0, hemp0, hmem0⟩ := (hm n).1 b0 hcase
              cases hws : s.process_window_start n with
              | none =>
                rw [hemp0 hws] at hold
                cases hold
              | some w0 =>
                obtain ⟨t, ht1, ht2, ht3⟩ := hmem0 r hold
                refine ⟨t, ht1, ht2, ?_⟩
                intro w hw
                have hba : baseWsOf s n ts = some w0 := by
                  simp [baseWsOf, hcase, hws]
                have hwse : (appendEntry ts s
                    (n, i :: rest)).process_window_start n = some w0 := by
                  simp [appendEntry, updateFn, hba]
                rw [hwse] at hw
                exact (Option.some.inj hw) ▸ (ht3 w0 hws)
      · intro w hw
        cases hcase : s.process_readings n with
        | none =>
          have hba : baseWsOf s n ts = some ts := by simp [baseWsOf, hcase]
          have hwse : (appendEntry ts s
              (n, i :: rest)).process_window_start n = some ts := by
            simp [appendEntry, updateFn, hba]
          rw [hwse] at hw
          exact le_of_eq (Option.some.inj hw).symm
        | some b0 =>
          have hba : baseWsOf s n ts = s.process_window_start n := by
            simp [baseWsOf, hcase]
          cases hws : s.process_window_start n with
          | none =>
            have hwse : (appendEntry ts s
                (n, i :: rest)).process_window_start n = some ts := by
              simp [appendEntry, updateFn, hba, hws]
            rw [hwse] at hw
            exact le_of_eq (Option.some.inj hw).symm
          | some w0 =>
            have hwse : (appendEntry ts s
                (n, i :: rest)).process_window_start n = some w0 := by
              simp [appendEntry, updateFn, hba, hws]
            rw [hwse] at hw
            exact (Option.some.inj hw) ▸ ((hm n).2 w0 hws)
    · have hne : (name, i :: rest).1 ≠ n := fun hh => hn hh.symm
      have hr := appendEntry_ne hne ts s
      rw [hr.1, hr.2]
      exact hm n

theorem appendPhase_inv {ts : ℚ} (ps : List (String × List PsInstance)) :
    ∀ (s : MonitorState) (T : ℚ), InvAt s T → T ≤ ts →
      0 < s.max_readings → InvAt (appendPhase s ps ts) ts := by
  induction ps with
  | nil => exact fun s T h hts _ => invAt_mono h hts
  | cons e rest ih =>
    intro s T h hts hpos
    rw [appendPhase_cons]
    exact ih _ ts (appendEntry_inv h hts hpos) (le_refl ts)
      (by rw [(appendEntry_config ts s e).2.2.2.2]; exact hpos)

theorem clearEntity_inv {s : MonitorState} {ts : ℚ} {p : String}
    (h : InvAt s ts) : InvAt (clearEntity ts s p) ts := by
  intro n
  by_cases hn : n = p
  · subst hn
    have hr : (clearEntity ts s n).process_readings n =
        (s.process_readings n).map CircularBuffer.clear := by
      simp [clearEntity, updateFn]
    have hw : (clearEntity ts s n).process_window_start n = some ts := by
      simp [clearEntity, updateFn]
    rw [hr, hw]
    constructor
    · intro b hb
      cases hcase : s.process_readings n with
      | none =>
        rw [hcase] at hb
        exact Option.noConfusion hb
      | some b0 =>
        rw [hcase] at hb
        obtain rfl := (Option.some.inj hb).symm
        obtain ⟨hwf0, -, -⟩ := (h n).1 b0 hcase
        refine ⟨bufWF_clear hwf0, fun _ => storedList_clear hwf0.size_pos, ?_⟩
        intro r hr'
        rw [storedList_clear hwf0.size_pos] at hr'
        cases hr'
    · intro w hw'
      exact le_of_eq (Option.some.inj hw').symm
  · have hr : (clearEntity ts s p).process_readings n =
        s.process_readings n := by
      simp [clearEntity, updateFn, hn]
    have hw : (clearEntity ts s p).process_window_start n =
        s.process_window_start n := by
      simp [clearEntity, updateFn, hn]
    rw [hr, hw]
    exact h n

theorem foldl_clear_inv {ts : ℚ} (L : List String) :
    ∀ s : MonitorState, InvAt s ts →
      InvAt (L.foldl (clearEntity ts) s) ts := by
  induction L with
  | nil => exact fun s h => h
  | cons q rest ih =>
    intro s h
    rw [List.foldl_cons]
    exact ih _ (clearEntity_inv h)

theorem stepStateCore_inv {s1 : MonitorState} {ts : ℚ} {ok : Bool}
    (h : InvAt s1 ts) : InvAt (stepStateCore s1 ts ok) ts := by
  simp only [stepStateCore]
  split
  · exact h
  · exact foldl_clear_inv _ _ (foldl_clear_inv _ _ h)

theorem monitorStep_inv {s : MonitorState} {T : ℚ}
    {ps : List (String × List PsInstance)} {ts : ℚ} {ok : Bool}
    (h : InvAt s T) (hts : T ≤ ts) (hpos : 0 < s.max_readings) :
    InvAt (monitorStep s ps ts ok).state ts := by
  by_cases hps : ps = []
  · subst hps
    rw [monitorStep_nil]
    exact invAt_mono h hts
  · rw [(monitorStep_proj hps s ts ok).1]
    exact stepStateCore_inv (appendPhase_inv ps s T h hts hpos)

theorem reload_config_state (s : MonitorState)
    (file : Option (ℚ × Option PartialConfig)) :
    (reload_config s file).1.process_readings = s.process_readings ∧
    (reload_config s file).1.process_window_start =
      s.process_window_start := by
  rcases file with _ | ⟨mtime, parsed⟩
  · exact ⟨rfl, rfl⟩
  · simp only [reload_config]
    split <;> exact ⟨rfl, rfl⟩

theorem reload_inv {s : MonitorState} {T : ℚ}
    {file : Option (ℚ × Option PartialConfig)} (h : InvAt s T) :
    InvAt (reload_config s file).1 T := by
  intro n
  obtain ⟨h1, h2⟩ := reload_config_state s file
  rw [h1, h2]
  exact h n

theorem initEntry_max (s : MonitorState) (n : String) :
    (initEntry s n).max_readings = s.max_readings := by
  cases hcase : s.process_readings n <;> simp [initEntry, hcase]

theorem initEntry_inv {s : MonitorState} {T : ℚ} {n0 : String}
    (h : InvAt s T) (hpos : 0 < s.max_readings) :
    InvAt (initEntry s n0) T := by
  cases hcase : s.process_readings n0 with
  | some b => simpa [initEntry, hcase] using h
  | none =>
    intro n
    by_cases hn : n = n0
    · subst hn
      have hr : (initEntry s n).process_readings n =
          some (CircularBuffer.new s.max_readings.toNat) := by
        simp [initEntry, hcase, updateFn]
      have hw : (initEntry s n).process_window_start n = none := by
        simp [initEntry, hcase, updateFn]
      rw [hr, hw]
      constructor
      · intro b hb
        obtain rfl := (Option.some.inj hb).symm
        have hc' : 0 < s.max_readings.toNat := by omega
        refine ⟨bufWF_new hc', fun _ => storedList_new hc', ?_⟩
        intro r hr'
        rw [storedList_new hc'] at hr'
        cases hr'
      · intro w hw'
        exact Option.noConfusion hw'
    · have hr : (initEntry s n0).process_readings n =
          s.process_readings n := by
        simp [initEntry, hcase, updateFn, hn]
      have hw : (initEntry s n0).process_window_start n =
          s.process_window_start n := by
        simp [initEntry, hcase, updateFn, hn]
      rw [hr, hw]
      exact h n

theorem foldl_init_inv {T : ℚ} (L : List String) :
    ∀ s : MonitorState, InvAt s T → 0 < s.max_readings →
      InvAt (L.foldl initEntry s) T := by
  induction L with
  | nil => exact fun s h _ => h
  | cons q rest ih =>
    intro s h hpos
    rw [List.foldl_cons]
    exact ih _ (initEntry_inv h hpos) (by rw [initEntry_max]; exact hpos)

theorem init_buffers_inv {s : MonitorState} {T : ℚ} (h : InvAt s T)
    (hpos : 0 < s.max_readings) : InvAt (init_buffers s) T :=
  foldl_init_inv _ s h hpos

theorem reloadStep_inv {s : MonitorState} {T : ℚ}
    {file : Option (ℚ × Option PartialConfig)} (h : InvAt s T)
    (hpos : 0 < (reload_config s file).1.max_readings) :
    InvAt (reloadStep s file) T := by
  simp only [reloadStep]
  split
  · exact init_buffers_inv (reload_inv h) hpos
  · exact reload_inv h

theorem emptyState_inv (T : ℚ) : InvAt emptyState T := by
  intro n
  constructor
  · intro b hb
    exact Option.noConfusion hb
  · intro w hw
    exact Option.noConfusion hw

theorem reachable_inv {s : MonitorState} {T : ℚ} (h : Reachable s T) :
    InvAt s T := by
  induction h with
  | base mtime parsed t0 hpos =>
    exact init_buffers_inv (reload_inv (emptyState_inv t0)) hpos
  | tick ps ts persistOk h hts hpos ih => exact monitorStep_inv ih hts hpos
  | reload file h hpos ih => exact reloadStep_inv ih hpos

/-! ## The claims -/

/-- C9: after a sequence of `n` appends into a fresh circular buffer of
capacity `c > 0`, the stored count is `min n c` and `get_values`
returns exactly the most recently appended `min n c` CPU values in
oldest-to-newest order (the last `min n c` elements of the appended
value sequence). -/
theorem claim_C9 (c : Nat) (hc : 0 < c) (l : List (ℚ × ℚ × Int)) :
    (appendAll c l).count = min l.length c ∧
    (appendAll c l).get_values =
      (l.map (fun e => e.2.1)).drop (l.length - c) :=
  ⟨(appendAll_spec c hc l).2.2.1, appendAll_get_values c hc l⟩

theorem claim_C9_witness :
    0 < 3 ∧
    ((appendAll 3 demoL).count = min demoL.length 3 ∧
      (appendAll 3 demoL).get_values =
        (demoL.map (fun e => e.2.1)).drop (demoL.length - 3)) :=
  ⟨by decide, claim_C9 3 (by decide) demoL⟩

unseal Rat.mul Rat.inv in
/-- C3: for every non-empty value list `v` and threshold `t`, the
percent-above-threshold statistic equals `100 * count(v > t) / count v`,
counting only values strictly greater than `t`; in particular with
threshold 95 over [96, 94, 97, 93, 98] it is 60. -/
theorem claim_C3 :
    (∀ (v : List ℚ) (t : ℚ), v ≠ [] →
      percent_above_threshold v t =
        100 * ((v.filter (fun x => t < x)).length : ℚ) / (v.length : ℚ)) ∧
    percent_above_threshold [96, 94, 97, 93, 98] 95 = 60 := by
  constructor
  · intro v t _
    rw [percent_above_threshold]
    ring
  · decide

theorem claim_C3_witness :
    ([96, 94, 97, 93, 98] : List ℚ) ≠ [] ∧
    percent_above_threshold [96, 94, 97, 93, 98] 95 =
      100 * ((([96, 94, 97, 93, 98] : List ℚ).filter
        (fun x => (95 : ℚ) < x)).length : ℚ) /
        (([96, 94, 97, 93, 98] : List ℚ).length : ℚ) :=
  ⟨by decide, claim_C3.1 [96, 94, 97, 93, 98] 95 (by decide)⟩

/-- C7: when the main census command fails and the fallback fails too,
`get_process_cpu_usage` returns the empty mapping instead of
propagating the error, and a tick with an empty mapping is a no-op on
the monitor state — no entity's window receives a sample, nothing
completes or triggers, the loop just proceeds to the next tick. -/
theorem claim_C7 (names : List String) (now : ℚ) (s : MonitorState)
    (ts : ℚ) (persistOk : Bool) :
    get_process_cpu_usage names .err .err now = ([], now) ∧
    monitorStep s [] ts persistOk =
      { state := s, completed := [], triggering := [],
        percentiles := fun _ => 0, aborted := false } :=
  ⟨rfl, rfl⟩

unseal Rat.sub Rat.add Rat.mul Rat.inv in
/-- C4 counterexample: in scenario B at tick 101, `java` is marked
complete by the completeness test although its window holds only 4
samples, fewer than the minimum of 10 — so the test is NOT the claimed
conjunction of elapsed time and minimum sample count. -/
theorem claim_C4_counterexample :
    (monitorStep demoStateB demoPsB 101 true).completed = [pJava] ∧
    (appendPhase demoStateB demoPsB 101).process_readings pJava =
      some demoBufB1 ∧
    demoBufB1.count < 10 :=
  ⟨by decide, by decide, by decide⟩

/-- C4 (amended): the window-completeness test of the loop is time-only:
an entity is in the completed set iff it is configured, has a buffer,
and its window start is set, truthy (nonzero) and at least
`monitoring_window` seconds before the tick.  The minimum-sample
condition is not part of the completeness test; it is enforced
separately during evaluation (see C1). -/
theorem claim_C4_amended (s : MonitorState) (ts : ℚ) (p : String) :
    p ∈ completedOf s ts ↔
      p ∈ s.process_names ∧
      (∃ b, s.process_readings p = some b) ∧
      ∃ w, s.process_window_start p = some w ∧ w ≠ 0 ∧
        (s.monitoring_window : ℚ) ≤ ts - w := by
  rw [mem_completedOf, windowElapsed_iff]
  simp [Option.isSome_iff_exists]

/-- C1: an entity `p` triggers an alert at a tick only if, after the
tick's appends, its window start is at least `monitoring_window`
seconds old AND its window holds at least 10 samples (both within the
time window and in the buffer); and whenever the window is complete by
elapsed time but the buffer holds fewer than 10 samples, the reported
statistic is 0 and `p` does not trigger — no matter how high the
individual sample values are. -/
theorem claim_C1 (s : MonitorState) (ps : List (String × List PsInstance))
    (ts : ℚ) (persistOk : Bool) (p : String) :
    (p ∈ (monitorStep s ps ts persistOk).triggering →
      ∃ w b, (appendPhase s ps ts).process_window_start p = some w ∧
        (s.monitoring_window : ℚ) ≤ ts - w ∧
        (appendPhase s ps ts).process_readings p = some b ∧
        10 ≤ (recentValues (appendPhase s ps ts) p ts).length ∧
        10 ≤ b.count) ∧
    (∀ b, (appendPhase s ps ts).process_readings p = some b →
      b.count < 10 → p ∈ (monitorStep s ps ts persistOk).completed →
      (monitorStep s ps ts persistOk).percentiles p = 0 ∧
      p ∉ (monitorStep s ps ts persistOk).triggering) := by
  by_cases hps : ps = []
  · subst hps
    rw [monitorStep_nil]
    constructor
    · intro h; simp at h
    · intro b _ _ hcomp; simp at hcomp
  · obtain ⟨-, hcomp, htrig, hperc, -⟩ := monitorStep_proj hps s ts persistOk
    have hwin := (appendPhase_config s ps ts).2.2.1
    constructor
    · intro hp
      rw [htrig] at hp
      obtain ⟨hc, hlen, -⟩ := mem_triggeringOf.mp hp
      obtain ⟨-, hsome, hwe⟩ := mem_completedOf.mp hc
      obtain ⟨w, hw, -, hle⟩ := windowElapsed_iff.mp hwe
      obtain ⟨b, hb⟩ := Option.isSome_iff_exists.mp hsome
      rw [hwin] at hle
      refine ⟨w, b, hw, hle, hb, hlen, ?_⟩
      have hbase : baseBufOf (appendPhase s ps ts) p = b := by
        simp [baseBufOf, hb]
      have hg := grv_length_le b
        ((appendPhase s ps ts).monitoring_window : ℚ) ts
      rw [recentValues, hbase] at hlen
      omega
    · intro b hb hcount hpc
      rw [hcomp] at hpc
      have hbase : baseBufOf (appendPhase s ps ts) p = b := by
        simp [baseBufOf, hb]
      have hlenlt : (recentValues (appendPhase s ps ts) p ts).length < 10 := by
        have h1 := grv_length_le b
          ((appendPhase s ps ts).monitoring_window : ℚ) ts
        rw [recentValues, hbase]
        omega
      constructor
      · rw [hperc]
        simp only [percentilesOf, if_pos hpc, entryStat]
        rw [if_neg (by omega)]
      · rw [htrig]
        intro hmem
        obtain ⟨-, hlen, -⟩ := mem_triggeringOf.mp hmem
        omega

unseal Rat.sub Rat.add Rat.mul Rat.inv in
theorem claim_C1_witness :
    (∃ w b,
      (appendPhase demoStateA demoPsA 101).process_window_start pJava =
        some w ∧
      (demoStateA.monitoring_window : ℚ) ≤ 101 - w ∧
      (appendPhase demoStateA demoPsA 101).process_readings pJava = some b ∧
      10 ≤ (recentValues (appendPhase demoStateA demoPsA 101) pJava
        101).length ∧
      10 ≤ b.count) ∧
    ((monitorStep demoStateB demoPsB 101 true).percentiles pJava = 0 ∧
      pJava ∉ (monitorStep demoStateB demoPsB 101 true).triggering) :=
  ⟨(claim_C1 demoStateA demoPsA 101 true pJava).1 (by decide),
   (claim_C1 demoStateB demoPsB 101 true pJava).2 demoBufB1 (by decide)
     (by decide) (by decide)⟩

unseal Rat.sub Rat.add Rat.mul Rat.inv in
/-- C2 counterexample: at tick 101 in scenario A, `java` is in the
completed set, but because the alert's evidence write fails, the tick's
processing ends via the exception and `java`'s window is NOT reset: it
still holds its 11 samples and its window start stays at 1 instead of
becoming the tick timestamp 101 — refuting the claim's "whether or not
an alert fired" on the failed-evidence-write case it covers. -/
theorem claim_C2_counterexample :
    pJava ∈ (monitorStep demoStateA demoPsA 101 false).completed ∧
    (∃ b, (monitorStep demoStateA demoPsA 101
        false).state.process_readings pJava = some b ∧
      b.count = 11 ∧ b.get_values ≠ []) ∧
    (monitorStep demoStateA demoPsA 101
      false).state.process_window_start pJava = some 1 ∧
    (monitorStep demoStateA demoPsA 101
      false).state.process_window_start pJava ≠ some 101 :=
  ⟨by decide,
    ⟨baseBufOf (monitorStep demoStateA demoPsA 101 false).state pJava,
      by decide, by decide, by decide⟩,
    by decide, by decide⟩

/-- C2 (amended): on a tick whose processing runs to completion — when
an alert fires, its evidence write succeeds (and all acquired instance
lists are nonempty, as `get_process_cpu_usage` guarantees) — every
entity whose window is complete ends the tick with an empty window
(count 0, no values) and `window_start` equal to the tick's sample
timestamp, whether or not it triggered, so no earlier sample is ever
reused in a later decision.  On a tick where an alert fires and the
evidence write fails, no window is reset at all (see C5). -/
theorem claim_C2 (s : MonitorState) (ps : List (String × List PsInstance))
    (ts : ℚ) (hps : ∀ e ∈ ps, e.2 ≠ ([] : List PsInstance)) (p : String)
    (hp : p ∈ (monitorStep s ps ts true).completed) :
    ∃ b, (monitorStep s ps ts true).state.process_readings p = some b ∧
      b.count = 0 ∧ b.get_values = [] ∧
      (monitorStep s ps ts true).state.process_window_start p = some ts := by
  by_cases hpsnil : ps = []
  · subst hpsnil
    rw [monitorStep_nil] at hp
    simp at hp
  · obtain ⟨hst, hcomp, -, -, -⟩ := monitorStep_proj hpsnil s ts true
    rw [hcomp] at hp
    rw [hst, stepStateCore_persist]
    obtain ⟨-, hsome, -⟩ := mem_completedOf.mp hp
    obtain ⟨b, hb⟩ := Option.isSome_iff_exists.mp hsome
    have h2 := foldl_clear_proj ts (triggeringOf (appendPhase s ps ts) ts)
      (appendPhase s ps ts) p
    have h3 := foldl_clear_proj ts
      ((completedOf (appendPhase s ps ts) ts).filter
        (fun n => decide (n ∉ triggeringOf (appendPhase s ps ts) ts)))
      ((triggeringOf (appendPhase s ps ts) ts).foldl (clearEntity ts)
        (appendPhase s ps ts)) p
    by_cases htr : p ∈ triggeringOf (appendPhase s ps ts) ts
    · have hnotf : p ∉ (completedOf (appendPhase s ps ts) ts).filter
          (fun n => decide (n ∉ triggeringOf (appendPhase s ps ts) ts)) := by
        intro hmem
        have h4 := (List.mem_filter.mp hmem).2
        simp at h4
        exact h4 htr
      refine ⟨b.clear, ?_, rfl, clear_get_values b, ?_⟩
      · rw [h3.1, if_neg hnotf, h2.1, if_pos htr, hb]
        rfl
      · rw [h3.2, if_neg hnotf, h2.2, if_pos htr]
    · have hf : p ∈ (completedOf (appendPhase s ps ts) ts).filter
          (fun n => decide (n ∉ triggeringOf (appendPhase s ps ts) ts)) := by
        rw [List.mem_filter]
        exact ⟨hp, by simp [htr]⟩
      refine ⟨b.clear, ?_, rfl, clear_get_values b, ?_⟩
      · rw [h3.1, if_pos hf, h2.1, if_neg htr, hb]
        rfl
      · rw [h3.2, if_pos hf]

unseal Rat.sub Rat.add Rat.mul Rat.inv in
theorem claim_C2_witness :
    (∀ e ∈ demoPsB, e.2 ≠ ([] : List PsInstance)) ∧
    pJava ∈ (monitorStep demoStateB demoPsB 101 true).completed ∧
    ∃ b, (monitorStep demoStateB demoPsB 101 true).state.process_readings
        pJava = some b ∧
      b.count = 0 ∧ b.get_values = [] ∧
      (monitorStep demoStateB demoPsB 101
        true).state.process_window_start pJava = some 101 :=
  ⟨by decide, by decide,
    claim_C2 demoStateB demoPsB 101 (by decide) pJava (by decide)⟩

unseal Rat.sub Rat.add Rat.mul Rat.inv in
/-- C5 counterexample: in scenario A at tick 101 the alert fires, but
with a failing evidence write the state transition does NOT survive:
the tick aborts, `java`'s window still holds its 11 samples and its
window start stays at 1 instead of advancing to 101. -/
theorem claim_C5_counterexample :
    (monitorStep demoStateA demoPsA 101 false).triggering = [pJava] ∧
    (monitorStep demoStateA demoPsA 101 false).aborted = true ∧
    (∃ b, (monitorStep demoStateA demoPsA 101
        false).state.process_readings pJava = some b ∧
      b.count = 11 ∧ b.get_values ≠ []) ∧
    (monitorStep demoStateA demoPsA 101
      false).state.process_window_start pJava = some 1 :=
  ⟨by decide, by decide,
    ⟨baseBufOf (monitorStep demoStateA demoPsA 101 false).state pJava,
      by decide, by decide, by decide⟩,
    by decide⟩

/-- C5 (amended): when an alert fires and the evidence write fails, the
state transition is rolled back rather than preserved: the exception
aborts the tick before any reset runs, so the post-state is exactly the
post-append state — the triggering entities' windows keep their samples
and their window starts do not advance; the loop's outer handler
catches the error and continues with the next tick. -/
theorem claim_C5_amended (s : MonitorState)
    (ps : List (String × List PsInstance)) (ts : ℚ) (hne : ps ≠ [])
    (htrig : triggeringOf (appendPhase s ps ts) ts ≠ []) :
    (monitorStep s ps ts false).state = appendPhase s ps ts ∧
    (monitorStep s ps ts false).aborted = true := by
  obtain ⟨hst, -, -, -, hab⟩ := monitorStep_proj hne s ts false
  refine ⟨hst.trans (stepStateCore_abort htrig), ?_⟩
  rw [hab]
  simp [htrig]

unseal Rat.sub Rat.add Rat.mul Rat.inv in
theorem claim_C5_amended_witness :
    demoPsA ≠ [] ∧
    triggeringOf (appendPhase demoStateA demoPsA 101) 101 ≠ [] ∧
    ((monitorStep demoStateA demoPsA 101 false).state =
        appendPhase demoStateA demoPsA 101 ∧
      (monitorStep demoStateA demoPsA 101 false).aborted = true) :=
  ⟨by decide, by decide,
    claim_C5_amended demoStateA demoPsA 101 (by decide) (by decide)⟩

unseal Rat.sub Rat.add Rat.mul Rat.inv in
/-- C6 counterexample: with an active threshold of 80 (≠ default 95)
and a config file that is malformed but has an advanced mtime, the
reload is NOT skipped: it returns `True` and the active threshold
becomes the default 95 — the previously active configuration does not
remain in effect. -/
theorem claim_C6_counterexample :
    (reload_config demoCfgState (some (2, none))).2 = true ∧
    (reload_config demoCfgState (some (2, none))).1.cpu_threshold = 95 ∧
    demoCfgState.cpu_threshold = 80 :=
  ⟨by decide, by decide, rfl⟩

/-- C6 (amended): a malformed config file never crashes the reload (the
parse error is caught), but the previous configuration remains active
only when the file's mtime cannot be read or has not advanced; when the
mtime has advanced, the reload is performed and the built-in default
configuration replaces the previously active values — window state
(buffers and window starts) is preserved either way. -/
theorem claim_C6_amended :
    (∀ s : MonitorState, reload_config s none = (s, false)) ∧
    (∀ (s : MonitorState) (mtime : ℚ), ¬ s.config_last_modified < mtime →
      reload_config s (some (mtime, none)) = (s, false)) ∧
    (∀ (s : MonitorState) (mtime : ℚ), s.config_last_modified < mtime →
      (reload_config s (some (mtime, none))).2 = true ∧
      (reload_config s (some (mtime, none))).1.process_names =
        default_config.process_names ∧
      (reload_config s (some (mtime, none))).1.cpu_threshold =
        default_config.cpu_threshold ∧
      (reload_config s (some (mtime, none))).1.check_interval =
        default_config.check_interval ∧
      (reload_config s (some (mtime, none))).1.monitoring_window =
        default_config.monitoring_window ∧
      (reload_config s (some (mtime, none))).1.percentage =
        default_config.percentage ∧
      (reload_config s (some (mtime, none))).1.process_readings =
        s.process_readings ∧
      (reload_config s (some (mtime, none))).1.process_window_start =
        s.process_window_start) := by
  refine ⟨fun s => rfl, ?_, ?_⟩
  · intro s mtime h
    simp only [reload_config]
    rw [if_neg h]
  · intro s mtime h
    simp only [reload_config]
    rw [if_pos h]
    exact ⟨rfl, rfl, rfl, rfl, rfl, rfl, rfl, rfl⟩

theorem claim_C6_amended_witness :
    demoCfgState.config_last_modified < 2 ∧
    (reload_config demoCfgState (some (2, none))).2 = true ∧
    (reload_config demoCfgState (some (2, none))).1.cpu_threshold =
      default_config.cpu_threshold :=
  ⟨by decide, (claim_C6_amended.2.2 demoCfgState 2 (by decide)).1,
    (claim_C6_amended.2.2 demoCfgState 2 (by decide)).2.2.1⟩

/-- C10: for every entry `(p, instances)` of a tick's acquired mapping
(distinct keys, nonempty instances), the append phase appends exactly
one sample to `p`'s window: the CPU value and PID of an instance with
the maximum CPU among all instances sharing the name — not a sum or an
average over them. -/
theorem claim_C10 (s : MonitorState)
    (ps : List (String × List PsInstance)) (ts : ℚ) (p : String)
    (instances : List PsInstance) (hmem : (p, instances) ∈ ps)
    (hne : instances ≠ []) (hnodup : (ps.map Prod.fst).Nodup) :
    ∃ m, m ∈ instances ∧ (∀ i ∈ instances, i.cpu ≤ m.cpu) ∧
      (appendPhase s ps ts).process_readings p =
        some ((baseBufOf s p).append ts m.cpu m.pid) := by
  induction ps generalizing s with
  | nil => cases hmem
  | cons e rest ih =>
    rw [appendPhase_cons]
    have hnodup' : (rest.map Prod.fst).Nodup :=
      (List.nodup_cons.mp (by simpa using hnodup)).2
    have hhead : e.1 ∉ rest.map Prod.fst :=
      (List.nodup_cons.mp (by simpa using hnodup)).1
    rcases List.mem_cons.mp hmem with heq | hmem'
    · obtain ⟨i, is, rfl⟩ :=
        List.exists_cons_of_ne_nil hne
      have he1 : e = (p, i :: is) := heq.symm
      subst he1
      have hp : p ∉ rest.map Prod.fst := hhead
      have hfix := (appendPhase_not_mem hp
        (appendEntry ts s (p, i :: is)) ts).1
      obtain ⟨hm1, hm2⟩ := maxByCpu_spec i is
      refine ⟨maxByCpu i is, hm1, hm2, ?_⟩
      rw [hfix]
      simp [appendEntry, updateFn]
    · have hpmem : p ∈ rest.map Prod.fst := by
        exact List.mem_map_of_mem Prod.fst hmem'
      have hne1 : e.1 ≠ p := fun h => hhead (h ▸ hpmem)
      have hbase : baseBufOf (appendEntry ts s e) p = baseBufOf s p := by
        simp [baseBufOf, (appendEntry_ne hne1 ts s).1,
          (appendEntry_config ts s e).2.2.2.2]
      obtain ⟨m, hm1, hm2, hm3⟩ := ih (appendEntry ts s e) hmem' hnodup'
      exact ⟨m, hm1, hm2, by rw [hm3, hbase]⟩

/-- C8: in every state reachable by the monitoring loop under
non-decreasing tick timestamps — through appends, resets and config
reloads — every sample retained in an entity's window carries a set
timestamp that is at least the entity's current window start (and at
most the latest tick time). -/
theorem claim_C8 {s : MonitorState} {T : ℚ} (h : Reachable s T)
    (p : String) (b : CircularBuffer) (w : ℚ)
    (hb : s.process_readings p = some b)
    (hw : s.process_window_start p = some w) :
    ∀ r ∈ storedList b, ∃ t, r.timestamp = some t ∧ w ≤ t ∧ t ≤ T := by
  have hinv := reachable_inv h
  obtain ⟨h1, -⟩ := hinv p
  obtain ⟨-, -, hmem⟩ := h1 b hb
  intro r hr
  obtain ⟨t, ht1, ht2, ht3⟩ := hmem r hr
  exact ⟨t, ht1, ht3 w hw, ht2⟩

unseal Rat.sub Rat.add Rat.mul Rat.inv in
theorem claim_C8_witness :
    ∃ t, (⟨some 5, 50, 7⟩ : Reading).timestamp = some t ∧
      (5 : ℚ) ≤ t ∧ t ≤ 5 := by
  have hreach : Reachable witState8 5 :=
    Reachable.tick demoPs8 5 true (Reachable.base 1 none 5 (by decide))
      (le_refl 5) (by decide)
  exact claim_C8 hreach pJava witBuf8 5 (by decide) (by decide)
    ⟨some 5, 50, 7⟩ (by decide)

theorem claim_C10_witness :
    (pJava, demoInstances) ∈ demoPsC ∧
    ∃ m, m ∈ demoInstances ∧ (∀ i ∈ demoInstances, i.cpu ≤ m.cpu) ∧
      (appendPhase demoStateC demoPsC 101).process_readings pJava =
        some ((baseBufOf demoStateC pJava).append 101 m.cpu m.pid) :=
  ⟨by decide,
    claim_C10 demoStateC demoPsC 101 pJava demoInstances (by decide)
      (by decide) (by decide)⟩

end CPUMon
